import Mathlib

/-!
Verification development for the KTU-GG-Alert-v2 calendar reminder bot
(`src/main.py`). The definitions below are a shallow embedding of the
program's core: the threshold windows and dedup ledgers of
`notify_schedules`, the `/noti` broadcast fan-out of `notice`, the
mute merge-patch of `set_mute_on_body`, and the `/delall`, `/delhistory`,
`/ok` confirmation state machine. Time differences are modelled as
integers counting microseconds (the resolution of Python `timedelta`).
-/

namespace KtuAlert

/-- Microseconds in one minute (`timedelta(minutes=1)`). -/
def usPerMin : Int := 60 * 1000000

/-- Microseconds in one hour (`timedelta(hours=1)`). -/
def usPerHour : Int := 60 * usPerMin

/-- Microseconds in one day (`timedelta(days=1)`). -/
def usPerDay : Int := 24 * usPerHour

/-- The 3-hour window test of `notify_schedules`
(`timedelta(minutes=179) < diff <= timedelta(minutes=180)`). -/
def threeHourWin (d : Int) : Bool :=
  decide (179 * usPerMin < d) && decide (d ≤ 180 * usPerMin)

/-- The 1-day window test of `notify_schedules`
(`timedelta(hours=23) < diff <= timedelta(days=1)`). -/
def oneDayWin (d : Int) : Bool :=
  decide (23 * usPerHour < d) && decide (d ≤ 1 * usPerDay)

/-- The 1-week window test of `notify_schedules`
(`timedelta(days=6) < diff <= timedelta(days=7)`). -/
def oneWeekWin (d : Int) : Bool :=
  decide (6 * usPerDay < d) && decide (d ≤ 7 * usPerDay)

/-- The three notification thresholds. -/
inductive Th where
  | hour
  | day
  | week
deriving DecidableEq, Repr

/-- The window test `notify_schedules` applies for each threshold. -/
def winOf : Th → Int → Bool
  | Th.hour => threeHourWin
  | Th.day => oneDayWin
  | Th.week => oneWeekWin

/-- The set of thresholds whose window test accepts a given
`diff = start - now`, read off the three independent `if` blocks of
`notify_schedules`. -/
def activeThresholds (d : Int) : List Th :=
  (if threeHourWin d then [Th.hour] else []) ++
  (if oneDayWin d then [Th.day] else []) ++
  (if oneWeekWin d then [Th.week] else [])

/-- The string tag used in the dedup keys of `notify_schedules`
(`_hour`, `_day`, `_week` suffixes). -/
def tagStr : Th → String
  | Th.hour => "hour"
  | Th.day => "day"
  | Th.week => "week"

/-- One entry of `_sorted_upcoming_items()` as seen by one polling pass:
`timeKey` is `event_time.strftime('%y%m%d %H%M')`, `summary` the event
summary, `mute` the `is_muted` projection, and `diffUs` the value of
`event_time - now` in microseconds at this tick. -/
structure SchedItem where
  timeKey : String
  summary : String
  mute : Bool
  diffUs : Int
deriving DecidableEq, Repr

/-- The dedup key `f"{event_time.strftime('%y%m%d %H%M')}_{description}_{tag}"`
built by `notify_schedules` for one threshold. -/
def uid (s : SchedItem) (t : Th) : String :=
  s.timeKey ++ "_" ++ s.summary ++ "_" ++ tagStr t

/-- The mutable in-process state read and written by `notify_schedules`:
the recipient set `user_ids` and the three module-level dedup sets
`notified_schedules_hour`, `notified_schedules_day`,
`notified_schedules_week`. -/
structure BotState where
  userIds : List Int
  hourSet : List String
  daySet : List String
  weekSet : List String
deriving DecidableEq, Repr

/-- The ledger of a given threshold. -/
def ledgerOf (st : BotState) : Th → List String
  | Th.hour => st.hourSet
  | Th.day => st.daySet
  | Th.week => st.weekSet

/-- One `send_message` attempt of the polling loop: recipient, dedup key,
threshold, and whether the send succeeded (a failed send only prints). -/
structure Attempt where
  chatId : Int
  key : String
  th : Th
  ok : Bool
deriving DecidableEq, Repr

/-- The per-recipient fan-out of one due notification (the inner
`for chat_id in user_ids` loop, whose `try/except` records the outcome
without aborting the loop). -/
def fanout (userIds : List Int) (k : String) (t : Th) (sendOk : Int → Bool) :
    List Attempt :=
  userIds.map (fun c => ⟨c, k, t, sendOk c⟩)

/-- One threshold block of `notify_schedules`: if the window test passes
and the key is not yet in the threshold's ledger, fan out to every
recipient and add the key to the ledger (the add is unconditional once
the block is entered, whatever the send outcomes). Returns the new
ledger, the fired (key, threshold) pairs, and the send attempts. -/
def fireOne (sendOk : Int → Bool) (userIds : List Int) (s : SchedItem)
    (t : Th) (win : Int → Bool) (led : List String) :
    List String × List (String × Th) × List Attempt :=
  if win s.diffUs && !(decide (uid s t ∈ led)) then
    (uid s t :: led, [(uid s t, t)], fanout userIds (uid s t) t sendOk)
  else (led, [], [])

/-- Processing of a single snapshot item by one polling pass: a muted
item is skipped outright (`if s["mute"]: continue`); otherwise the three
threshold blocks run independently, each against its own ledger. -/
def processItem (sendOk : Int → Bool) (st : BotState) (s : SchedItem) :
    BotState × List (String × Th) × List Attempt :=
  if s.mute then (st, [], [])
  else
    (⟨st.userIds,
      (fireOne sendOk st.userIds s Th.hour threeHourWin st.hourSet).1,
      (fireOne sendOk st.userIds s Th.day oneDayWin st.daySet).1,
      (fireOne sendOk st.userIds s Th.week oneWeekWin st.weekSet).1⟩,
     (fireOne sendOk st.userIds s Th.hour threeHourWin st.hourSet).2.1 ++
       (fireOne sendOk st.userIds s Th.day oneDayWin st.daySet).2.1 ++
       (fireOne sendOk st.userIds s Th.week oneWeekWin st.weekSet).2.1,
     (fireOne sendOk st.userIds s Th.hour threeHourWin st.hourSet).2.2 ++
       (fireOne sendOk st.userIds s Th.day oneDayWin st.daySet).2.2 ++
       (fireOne sendOk st.userIds s Th.week oneWeekWin st.weekSet).2.2)

/-- The `for s in items` loop of one polling pass, threading the ledgers
through the items and collecting fired pairs and send attempts. -/
def runItems (sendOk : Int → Bool) (st : BotState) :
    List SchedItem → BotState × List (String × Th) × List Attempt
  | [] => (st, [], [])
  | s :: rest =>
    ((runItems sendOk (processItem sendOk st s).1 rest).1,
     (processItem sendOk st s).2.1 ++
       (runItems sendOk (processItem sendOk st s).1 rest).2.1,
     (processItem sendOk st s).2.2 ++
       (runItems sendOk (processItem sendOk st s).1 rest).2.2)

/-- One tick of `notify_schedules`: if the recipient set is empty the
tick does nothing (`if not user_ids: sleep; continue`); otherwise the
snapshot items are processed in order. -/
def tick (st : BotState) (items : List SchedItem) (sendOk : Int → Bool) :
    BotState × List (String × Th) × List Attempt :=
  if st.userIds.isEmpty then (st, [], [])
  else runItems sendOk st items

/-- A run of successive polling ticks, each with its own snapshot and
send outcomes, accumulating the fired (key, threshold) pairs. -/
def runTicks (st : BotState) :
    List (List SchedItem × (Int → Bool)) → BotState × List (String × Th)
  | [] => (st, [])
  | r :: rest =>
    ((runTicks (tick st r.1 r.2).1 rest).1,
     (tick st r.1 r.2).2.1 ++ (runTicks (tick st r.1 r.2).1 rest).2)

/-- The fired pairs of one threshold. -/
def firedOfTh (t : Th) (l : List (String × Th)) : List (String × Th) :=
  l.filter (fun p => decide (p.2 = t))

/-- The broadcast loop of the `/noti` handler `notice`: iterate over a
snapshot `list(user_ids)` of the recipient set; a failed send appends
the recipient to `failed`, removes it from the live set
(`user_ids.remove(chat_id)` followed by `save_user_ids`), and the loop
continues with the next recipient. Arguments: remaining snapshot, live
set. Returns the live set, the failed list, and the attempts with their
outcomes in iteration order. -/
def noticeStep (sendOk : Int → Bool) :
    List Int → List Int → List Int × List Int × List (Int × Bool)
  | [], live => (live, [], [])
  | c :: rest, live =>
    if sendOk c then
      ((noticeStep sendOk rest live).1,
       (noticeStep sendOk rest live).2.1,
       (c, true) :: (noticeStep sendOk rest live).2.2)
    else
      ((noticeStep sendOk rest (live.erase c)).1,
       c :: (noticeStep sendOk rest (live.erase c)).2.1,
       (c, false) :: (noticeStep sendOk rest (live.erase c)).2.2)

/-- Outcome of a `/noti` broadcast: the persisted recipient set after the
loop, the failed recipients, the attempts made, and the two counts the
final report message prints (`len(user_ids)` successes after removals,
`len(failed)` failures). -/
structure NoticeResult where
  finalIds : List Int
  failed : List Int
  attempts : List (Int × Bool)
  reportSuccess : Nat
  reportFail : Nat
deriving DecidableEq, Repr

/-- The `/noti` handler `notice` restricted to its broadcast loop and
report (the empty-message and empty-recipient early returns aside). -/
def notice (userIds : List Int) (sendOk : Int → Bool) : NoticeResult :=
  ⟨(noticeStep sendOk userIds userIds).1,
   (noticeStep sendOk userIds userIds).2.1,
   (noticeStep sendOk userIds userIds).2.2,
   (noticeStep sendOk userIds userIds).1.length,
   (noticeStep sendOk userIds userIds).2.1.length⟩

/-- One calendar event as held by the external calendar collaborator:
opaque id, the start instant that `get_event_start_dt` resolves (`none`
when unresolvable), and the summary. Instants are in microseconds. -/
structure CalEvent where
  eid : String
  startUs : Option Int
  summary : String
deriving DecidableEq, Repr

/-- Association-list lookup keyed by chat id, modelling the
`confirm_action_{chat_id}` / `confirm_task_{chat_id}` entries of
`bot_data`. -/
def lookupA {α : Type} : List (Int × α) → Int → Option α
  | [], _ => none
  | p :: rest, c => if p.1 = c then some p.2 else lookupA rest c

/-- Removal of a chat id's entry (`bot_data.pop(key, None)`). -/
def removeA {α : Type} (l : List (Int × α)) (c : Int) : List (Int × α) :=
  l.filter (fun p => decide (p.1 ≠ c))

/-- The two destructive bulk actions (`"delall"` / `"delhistory"`). -/
inductive ConfirmAction where
  | delall
  | delhistory
deriving DecidableEq, Repr

/-- The user-visible responses of the confirmation handlers. -/
inductive Reply where
  | promptDelall
  | promptDelhistory
  | rejectedPending
  | timeoutCancelled
  | deletedUpcoming (n : Nat)
  | deletedHistory (n : Nat)
  | nothingToConfirm
deriving DecidableEq, Repr

/-- The state touched by the confirmation handlers: the calendar's
events, the per-chat `confirm_action_{chat}` entries, the per-chat
`confirm_task_{chat}` timer handles (a fresh numeric handle stands for
each `asyncio.create_task(confirm_timeout(...))`), and the next fresh
handle. -/
structure ConfirmSt where
  cal : List CalEvent
  actions : List (Int × ConfirmAction)
  tasks : List (Int × Nat)
  nextTask : Nat
deriving DecidableEq, Repr

/-- The filter realised by `list_upcoming` (`timeMin = now`) combined
with the resolvable-start requirement of `_sorted_upcoming_items`. -/
def isUpcoming (now : Int) (e : CalEvent) : Bool :=
  match e.startUs with
  | some d => decide (now ≤ d)
  | none => false

/-- The range filter realised by `list_past(days=365)`
(`now - 365d <= start <= now`). -/
def inPastYearRange (now : Int) (e : CalEvent) : Bool :=
  match e.startUs with
  | some d => decide (now - 365 * usPerDay ≤ d) && decide (d ≤ now)
  | none => false

/-- The `dt and dt < now` test the `delhistory` branch of `ok_handler`
applies to each listed event before deleting it. -/
def strictlyPast (now : Int) (e : CalEvent) : Bool :=
  match e.startUs with
  | some d => decide (d < now)
  | none => false

/-- Start-time order used by the calendar listing and by the
`items.sort(key=lambda x: x["dt"])` of `_sorted_upcoming_items`. -/
def startLe (a b : CalEvent) : Bool :=
  decide (a.startUs.getD 0 ≤ b.startUs.getD 0)

/-- The events `_sorted_upcoming_items()` yields for deletion by the
`delall` branch: the upcoming listing (`list_upcoming`, capped at
`maxResults=300`), sorted by start time. -/
def upcomingItems (cal : List CalEvent) (now : Int) : List CalEvent :=
  ((cal.filter (fun e => isUpcoming now e)).mergeSort startLe).take 300

/-- The events the `delhistory` branch of `ok_handler` deletes: the
`list_past(days=365)` listing (capped at `maxResults=500`), restricted
to `dt < now`. -/
def historyItems (cal : List CalEvent) (now : Int) : List CalEvent :=
  (((cal.filter (fun e => inPastYearRange now e)).mergeSort startLe).take 500).filter
    (fun e => strictlyPast now e)

/-- The `/delall` handler `delall_confirm_prompt`: while a confirmation
is pending for this chat the command is rejected and nothing changes;
otherwise the pending action is recorded, a timeout task is started and
the prompt is sent. -/
def delall_confirm_prompt (chat : Int) (st : ConfirmSt) : ConfirmSt × Reply :=
  if (lookupA st.actions chat).isSome then (st, Reply.rejectedPending)
  else
    ({ st with
        actions := (chat, ConfirmAction.delall) :: st.actions,
        tasks := (chat, st.nextTask) :: st.tasks,
        nextTask := st.nextTask + 1 },
     Reply.promptDelall)

/-- The `/delhistory` handler `delhistory_confirm_prompt`, mirroring
`delall_confirm_prompt`. -/
def delhistory_confirm_prompt (chat : Int) (st : ConfirmSt) : ConfirmSt × Reply :=
  if (lookupA st.actions chat).isSome then (st, Reply.rejectedPending)
  else
    ({ st with
        actions := (chat, ConfirmAction.delhistory) :: st.actions,
        tasks := (chat, st.nextTask) :: st.tasks,
        nextTask := st.nextTask + 1 },
     Reply.promptDelhistory)

/-- The expiry of `confirm_timeout` (reached only when the task was not
cancelled): if the chat still has a pending action, both `bot_data`
entries are popped and the cancellation notice is sent; otherwise
nothing happens. -/
def confirm_timeout (chat : Int) (st : ConfirmSt) : ConfirmSt × Option Reply :=
  if (lookupA st.actions chat).isSome then
    ({ st with actions := removeA st.actions chat, tasks := removeA st.tasks chat },
     some Reply.timeoutCancelled)
  else (st, none)

/-- The `/ok` handler `ok_handler`: pop the pending action and its timer
task (cancelling the task); on `delall` delete every item of
`_sorted_upcoming_items()` (a `delete_event` raising `HttpError` is
skipped and not counted), on `delhistory` delete every strictly past
listed event of the trailing year, otherwise report that there is
nothing to confirm. `delFail` tells which event ids the collaborator
fails to delete. -/
def ok_handler (chat : Int) (now : Int) (delFail : String → Bool)
    (st : ConfirmSt) : ConfirmSt × Reply :=
  match lookupA st.actions chat with
  | some ConfirmAction.delall =>
    ({ st with
        actions := removeA st.actions chat,
        tasks := removeA st.tasks chat,
        cal := st.cal.filter
          (fun e => !(decide (e ∈ upcomingItems st.cal now) && !delFail e.eid)) },
     Reply.deletedUpcoming
       ((upcomingItems st.cal now).filter (fun e => !delFail e.eid)).length)
  | some ConfirmAction.delhistory =>
    ({ st with
        actions := removeA st.actions chat,
        tasks := removeA st.tasks chat,
        cal := st.cal.filter
          (fun e => !(decide (e ∈ historyItems st.cal now) && !delFail e.eid)) },
     Reply.deletedHistory
       ((historyItems st.cal now).filter (fun e => !delFail e.eid)).length)
  | none =>
    ({ st with actions := removeA st.actions chat, tasks := removeA st.tasks chat },
     Reply.nothingToConfirm)

/-- One private extended-property entry lookup
(`(ev.get("extendedProperties") or {}).get("private")` access). -/
def lookupKey : List (String × String) → String → Option String
  | [], _ => none
  | p :: rest, k => if p.1 = k then some p.2 else lookupKey rest k

/-- Python dict assignment `priv[k] = v` on a copied dict: replace the
entry if the key is present, else append it. -/
def setKey : List (String × String) → String → String → List (String × String)
  | [], k, v => [(k, v)]
  | p :: rest, k, v =>
    if p.1 = k then (k, v) :: setKey rest k v else p :: setKey rest k v

/-- A calendar event's fields as the mute handlers see them: start, end,
summary and the private extended properties. -/
structure GEvent where
  evStart : String
  evEnd : String
  evSummary : String
  evPriv : List (String × String)
deriving DecidableEq, Repr

/-- A patch request body: only the fields present are to change. -/
structure PatchBody where
  pStart : Option String
  pEnd : Option String
  pSummary : Option String
  pPriv : Option (List (String × String))
deriving DecidableEq, Repr

/-- The body built by `set_mute_on_body`: copy the existing private properties, set
`priv["mute"]` to `"v"` or `""`, and return a body holding only
`extendedProperties.private`. -/
def set_mute_on_body (ev : GEvent) (mute : Bool) : PatchBody :=
  ⟨none, none, none, some (setKey ev.evPriv "mute" (if mute then "v" else ""))⟩

/-- Modelled from the spec: the merge-patch semantics of the external
calendar collaborator's `patch` operation (spec section 6: only the
fields provided in the body change; the collaborator's implementation is
not part of this repository). -/
def applyPatch (ev : GEvent) (b : PatchBody) : GEvent :=
  ⟨b.pStart.getD ev.evStart, b.pEnd.getD ev.evEnd,
   b.pSummary.getD ev.evSummary, b.pPriv.getD ev.evPriv⟩

/-- The patch performed by `mute_schedule` / `unmute_schedule`: fetch
the event, build the body with `set_mute_on_body`, and patch. -/
def setMuted (ev : GEvent) (mute : Bool) : GEvent :=
  applyPatch ev (set_mute_on_body ev mute)

end KtuAlert

namespace KtuAlert

/-- C1: the polling pass classifies an event as THREE_HOUR exactly when
`179min < diff <= 180min`, as ONE_DAY exactly when `23h < diff <= 24h`,
as ONE_WEEK exactly when `6d < diff <= 7d`, and for `diff <= 0` no
threshold is ever active. -/
theorem threshold_windows_match_spec (d : Int) :
    (Th.hour ∈ activeThresholds d ↔ (179 * usPerMin < d ∧ d ≤ 180 * usPerMin))
    ∧ (Th.day ∈ activeThresholds d ↔ (23 * usPerHour < d ∧ d ≤ 24 * usPerHour))
    ∧ (Th.week ∈ activeThresholds d ↔ (6 * usPerDay < d ∧ d ≤ 7 * usPerDay))
    ∧ (d ≤ 0 → activeThresholds d = []) := by
  refine ⟨?_, ?_, ?_, ?_⟩ <;>
    simp only [activeThresholds, threeHourWin, oneDayWin, oneWeekWin,
      usPerDay, usPerHour, usPerMin] <;>
    split_ifs <;>
    simp_all <;>
    omega

/-- Witness for `threshold_windows_match_spec`: at `diff = -1` (a past
event) no threshold is active. -/
theorem threshold_windows_match_spec_witness : activeThresholds (-1) = [] :=
  (threshold_windows_match_spec (-1)).2.2.2 (by decide)

theorem fireOne_fired_char (sendOk : Int → Bool) (uids : List Int)
    (s : SchedItem) (t : Th) (win : Int → Bool) (led : List String)
    (p : String × Th) (hp : p ∈ (fireOne sendOk uids s t win led).2.1) :
    p = (uid s t, t) ∧ uid s t ∉ led ∧ win s.diffUs = true := by
  unfold fireOne at hp
  split_ifs at hp with h
  · simp only [Bool.and_eq_true, Bool.not_eq_true', decide_eq_false_iff_not] at h
    simp only [List.mem_singleton] at hp
    exact ⟨hp, h.2, h.1⟩
  · simp at hp

theorem fireOne_led_mono (sendOk : Int → Bool) (uids : List Int)
    (s : SchedItem) (t : Th) (win : Int → Bool) (led : List String)
    (k : String) (hk : k ∈ led) :
    k ∈ (fireOne sendOk uids s t win led).1 := by
  unfold fireOne
  split_ifs
  · exact List.mem_cons_of_mem _ hk
  · exact hk

theorem fireOne_fired_eq (sendOk : Int → Bool) (uids : List Int)
    (s : SchedItem) (t : Th) (win : Int → Bool) (led : List String) :
    (fireOne sendOk uids s t win led).2.1 =
      (if win s.diffUs && !(decide (uid s t ∈ led)) then [(uid s t, t)] else []) := by
  unfold fireOne
  split_ifs <;> rfl

theorem firedOfTh_append (t : Th) (a b : List (String × Th)) :
    firedOfTh t (a ++ b) = firedOfTh t a ++ firedOfTh t b := by
  unfold firedOfTh
  exact List.filter_append _ _

theorem firedOfTh_fireOne_ne (t' t : Th) (hne : t' ≠ t) (sendOk : Int → Bool)
    (uids : List Int) (s : SchedItem) (win : Int → Bool) (led : List String) :
    firedOfTh t' (fireOne sendOk uids s t win led).2.1 = [] := by
  rw [fireOne_fired_eq]
  split_ifs
  · simp [firedOfTh, Ne.symm hne]
  · rfl

theorem processItem_userIds (sendOk : Int → Bool) (st : BotState)
    (s : SchedItem) :
    (processItem sendOk st s).1.userIds = st.userIds := by
  unfold processItem
  split_ifs <;> rfl

theorem processItem_mono (sendOk : Int → Bool) (st : BotState) (s : SchedItem)
    (t : Th) (k : String) (hk : k ∈ ledgerOf st t) :
    k ∈ ledgerOf (processItem sendOk st s).1 t := by
  unfold processItem
  split_ifs
  · exact hk
  · cases t <;> exact fireOne_led_mono _ _ _ _ _ _ _ hk

theorem processItem_no_refire (sendOk : Int → Bool) (st : BotState)
    (s : SchedItem) (t : Th) (k : String) (hk : k ∈ ledgerOf st t) :
    (k, t) ∉ (processItem sendOk st s).2.1 := by
  unfold processItem
  split_ifs
  · simp
  · intro hmem
    simp only [List.mem_append] at hmem
    rcases hmem with (h | h) | h <;>
    · obtain ⟨he, hnot, -⟩ := fireOne_fired_char _ _ _ _ _ _ _ h
      simp only [Prod.mk.injEq] at he
      obtain ⟨hk1, ht⟩ := he
      subst ht
      subst hk1
      exact hnot (by simpa [ledgerOf] using hk)

theorem processItem_fired_from_item (sendOk : Int → Bool) (st : BotState)
    (s : SchedItem) (k : String) (t : Th)
    (h : (k, t) ∈ (processItem sendOk st s).2.1) :
    s.mute = false ∧ uid s t = k := by
  unfold processItem at h
  split_ifs at h with hm
  · simp at h
  · have hm' : s.mute = false := by simpa using hm
    simp only [List.mem_append] at h
    rcases h with (h | h) | h <;>
    · obtain ⟨he, -, -⟩ := fireOne_fired_char _ _ _ _ _ _ _ h
      simp only [Prod.mk.injEq] at he
      obtain ⟨hk1, ht⟩ := he
      subst ht
      exact ⟨hm', hk1.symm⟩

theorem runItems_userIds (sendOk : Int → Bool) (l : List SchedItem)
    (st : BotState) :
    (runItems sendOk st l).1.userIds = st.userIds := by
  induction l generalizing st with
  | nil => rfl
  | cons s rest ih =>
    simp only [runItems]
    rw [ih, processItem_userIds]

theorem runItems_mono (sendOk : Int → Bool) (l : List SchedItem)
    (st : BotState) (t : Th) (k : String) (hk : k ∈ ledgerOf st t) :
    k ∈ ledgerOf (runItems sendOk st l).1 t := by
  induction l generalizing st with
  | nil => exact hk
  | cons s rest ih => exact ih _ (processItem_mono _ _ _ _ _ hk)

theorem runItems_no_refire (sendOk : Int → Bool) (l : List SchedItem)
    (st : BotState) (t : Th) (k : String) (hk : k ∈ ledgerOf st t) :
    (k, t) ∉ (runItems sendOk st l).2.1 := by
  induction l generalizing st with
  | nil => simp [runItems]
  | cons s rest ih =>
    intro hmem
    simp only [runItems, List.mem_append] at hmem
    rcases hmem with h | h
    · exact processItem_no_refire _ _ _ _ _ hk h
    · exact ih _ (processItem_mono _ _ _ _ _ hk) h

theorem runItems_fired_from_item (sendOk : Int → Bool) (l : List SchedItem)
    (st : BotState) (k : String) (t : Th)
    (h : (k, t) ∈ (runItems sendOk st l).2.1) :
    ∃ s, s ∈ l ∧ s.mute = false ∧ uid s t = k := by
  induction l generalizing st with
  | nil => simp [runItems] at h
  | cons s rest ih =>
    simp only [runItems, List.mem_append] at h
    rcases h with h | h
    · obtain ⟨hm, hu⟩ := processItem_fired_from_item _ _ _ _ _ h
      exact ⟨s, List.mem_cons_self _ _, hm, hu⟩
    · obtain ⟨s', hs', hm, hu⟩ := ih _ h
      exact ⟨s', List.mem_cons_of_mem _ hs', hm, hu⟩

theorem tick_mono (st : BotState) (items : List SchedItem)
    (sendOk : Int → Bool) (t : Th) (k : String) (hk : k ∈ ledgerOf st t) :
    k ∈ ledgerOf (tick st items sendOk).1 t := by
  unfold tick
  split_ifs
  · exact hk
  · exact runItems_mono _ _ _ _ _ hk

theorem tick_no_refire (st : BotState) (items : List SchedItem)
    (sendOk : Int → Bool) (t : Th) (k : String) (hk : k ∈ ledgerOf st t) :
    (k, t) ∉ (tick st items sendOk).2.1 := by
  unfold tick
  split_ifs
  · simp
  · exact runItems_no_refire _ _ _ _ _ hk

theorem runTicks_no_refire (runs : List (List SchedItem × (Int → Bool)))
    (st : BotState) (t : Th) (k : String) (hk : k ∈ ledgerOf st t) :
    (k, t) ∉ (runTicks st runs).2 := by
  induction runs generalizing st with
  | nil => simp [runTicks]
  | cons r rest ih =>
    intro hmem
    simp only [runTicks, List.mem_append] at hmem
    rcases hmem with h | h
    · exact tick_no_refire _ _ _ _ _ hk h
    · exact ih _ (tick_mono _ _ _ _ _ hk) h

theorem processItem_day_week_inv (sendOk : Int → Bool) (s : SchedItem)
    (st1 st2 : BotState) (hu : st1.userIds = st2.userIds)
    (hd : st1.daySet = st2.daySet) (hw : st1.weekSet = st2.weekSet) :
    (processItem sendOk st1 s).1.userIds = (processItem sendOk st2 s).1.userIds
    ∧ (processItem sendOk st1 s).1.daySet = (processItem sendOk st2 s).1.daySet
    ∧ (processItem sendOk st1 s).1.weekSet = (processItem sendOk st2 s).1.weekSet
    ∧ firedOfTh Th.day (processItem sendOk st1 s).2.1
        = firedOfTh Th.day (processItem sendOk st2 s).2.1
    ∧ firedOfTh Th.week (processItem sendOk st1 s).2.1
        = firedOfTh Th.week (processItem sendOk st2 s).2.1 := by
  unfold processItem
  split_ifs
  · exact ⟨hu, hd, hw, rfl, rfl⟩
  · refine ⟨hu, ?_, ?_, ?_, ?_⟩
    · simp only
      rw [hu, hd]
    · simp only
      rw [hu, hw]
    · simp only [firedOfTh_append]
      rw [firedOfTh_fireOne_ne Th.day Th.hour (by decide),
        firedOfTh_fireOne_ne Th.day Th.hour (by decide),
        firedOfTh_fireOne_ne Th.day Th.week (by decide),
        firedOfTh_fireOne_ne Th.day Th.week (by decide), hu, hd]
    · simp only [firedOfTh_append]
      rw [firedOfTh_fireOne_ne Th.week Th.hour (by decide),
        firedOfTh_fireOne_ne Th.week Th.hour (by decide),
        firedOfTh_fireOne_ne Th.week Th.day (by decide),
        firedOfTh_fireOne_ne Th.week Th.day (by decide), hu, hw]

theorem runItems_day_week_inv (sendOk : Int → Bool) (l : List SchedItem)
    (st1 st2 : BotState) (hu : st1.userIds = st2.userIds)
    (hd : st1.daySet = st2.daySet) (hw : st1.weekSet = st2.weekSet) :
    (runItems sendOk st1 l).1.userIds = (runItems sendOk st2 l).1.userIds
    ∧ (runItems sendOk st1 l).1.daySet = (runItems sendOk st2 l).1.daySet
    ∧ (runItems sendOk st1 l).1.weekSet = (runItems sendOk st2 l).1.weekSet
    ∧ firedOfTh Th.day (runItems sendOk st1 l).2.1
        = firedOfTh Th.day (runItems sendOk st2 l).2.1
    ∧ firedOfTh Th.week (runItems sendOk st1 l).2.1
        = firedOfTh Th.week (runItems sendOk st2 l).2.1 := by
  induction l generalizing st1 st2 with
  | nil => exact ⟨hu, hd, hw, rfl, rfl⟩
  | cons s rest ih =>
    obtain ⟨pu, pd, pw, pfd, pfw⟩ := processItem_day_week_inv sendOk s st1 st2 hu hd hw
    obtain ⟨ru, rd2, rw2, rfd, rfw⟩ := ih _ _ pu pd pw
    refine ⟨ru, rd2, rw2, ?_, ?_⟩
    · simp only [runItems, firedOfTh_append]
      rw [pfd, rfd]
    · simp only [runItems, firedOfTh_append]
      rw [pfw, rfw]

theorem tick_hourSet_irrelevant (st : BotState) (hs : List String)
    (items : List SchedItem) (sendOk : Int → Bool) :
    firedOfTh Th.day (tick { st with hourSet := hs } items sendOk).2.1
      = firedOfTh Th.day (tick st items sendOk).2.1
    ∧ firedOfTh Th.week (tick { st with hourSet := hs } items sendOk).2.1
      = firedOfTh Th.week (tick st items sendOk).2.1 := by
  have hsame : ({ st with hourSet := hs } : BotState).userIds = st.userIds := rfl
  unfold tick
  rw [hsame]
  by_cases h : st.userIds.isEmpty
  · rw [if_pos h, if_pos h]
    exact ⟨rfl, rfl⟩
  · rw [if_neg h, if_neg h]
    have hinv := runItems_day_week_inv sendOk items { st with hourSet := hs } st rfl rfl rfl
    exact ⟨hinv.2.2.2.1, hinv.2.2.2.2⟩

/-- C2: once a dedup key is in a threshold's ledger, no further
notification is dispatched for that (key, threshold) pair over any
sequence of later ticks; and the hour ledger's contents never affect
which 1-day or 1-week notifications a tick fires. -/
theorem dedup_fires_once_and_ledgers_independent (st : BotState) (t : Th)
    (k : String) (runs : List (List SchedItem × (Int → Bool)))
    (hs : List String) (items : List SchedItem) (sendOk : Int → Bool)
    (hk : k ∈ ledgerOf st t) :
    (k, t) ∉ (runTicks st runs).2
    ∧ firedOfTh Th.day (tick { st with hourSet := hs } items sendOk).2.1
        = firedOfTh Th.day (tick st items sendOk).2.1
    ∧ firedOfTh Th.week (tick { st with hourSet := hs } items sendOk).2.1
        = firedOfTh Th.week (tick st items sendOk).2.1 :=
  ⟨runTicks_no_refire runs st t k hk,
   (tick_hourSet_irrelevant st hs items sendOk).1,
   (tick_hourSet_irrelevant st hs items sendOk).2⟩

/-- Witness for `dedup_fires_once_and_ledgers_independent`: a key already
in the hour ledger is never fired again. -/
theorem dedup_fires_once_witness :
    ("k", Th.hour) ∉ (runTicks ⟨[7], ["k"], [], []⟩
      [([⟨"t", "s", false, 10800000000⟩], fun _ => true)]).2 :=
  (dedup_fires_once_and_ledgers_independent ⟨[7], ["k"], [], []⟩ Th.hour "k"
    [([⟨"t", "s", false, 10800000000⟩], fun _ => true)] [] [] (fun _ => true)
    (by simp [ledgerOf])).1

/-- C4: every (key, threshold) pair fired by a polling tick comes from a
snapshot item whose mute flag is clear; a muted event never produces a
dispatch at any threshold. -/
theorem muted_events_never_dispatched (st : BotState) (items : List SchedItem)
    (sendOk : Int → Bool) (k : String) (t : Th)
    (hf : (k, t) ∈ (tick st items sendOk).2.1) :
    ∃ s, s ∈ items ∧ s.mute = false ∧ uid s t = k := by
  unfold tick at hf
  split_ifs at hf
  · simp at hf
  · exact runItems_fired_from_item _ _ _ _ _ hf

/-- Witness for `muted_events_never_dispatched` at a concrete firing tick. -/
theorem muted_events_never_dispatched_witness :
    ∃ s, s ∈ [(⟨"a", "b", false, 10800000000⟩ : SchedItem)]
      ∧ s.mute = false ∧ uid s Th.hour = "a_b_hour" :=
  muted_events_never_dispatched ⟨[7], [], [], []⟩
    [⟨"a", "b", false, 10800000000⟩] (fun _ => true) "a_b_hour" Th.hour
    (by decide)

/-- C9: a polling tick never changes the recipient set, whatever the
snapshot and the delivery outcomes. -/
theorem polling_tick_preserves_recipients (st : BotState)
    (items : List SchedItem) (sendOk : Int → Bool) :
    (tick st items sendOk).1.userIds = st.userIds := by
  unfold tick
  split_ifs
  · rfl
  · exact runItems_userIds _ _ _

/-- C3 counterexample: with a single recipient whose delivery always
fails, the polling pass still records the dedup key in the hour ledger
(every attempt failed, yet a ledger entry was created), and a later
tick with the event still inside the 3-hour window fires nothing. -/
theorem ledger_entry_created_despite_total_failure :
    ((tick ⟨[7], [], [], []⟩ [⟨"250101 1200", "mtg", false, 10800000000⟩]
        (fun _ => false)).2.2.all (fun a => !a.ok)) = true
    ∧ (tick ⟨[7], [], [], []⟩ [⟨"250101 1200", "mtg", false, 10800000000⟩]
        (fun _ => false)).2.2 ≠ []
    ∧ "250101 1200_mtg_hour" ∈
        (tick ⟨[7], [], [], []⟩ [⟨"250101 1200", "mtg", false, 10800000000⟩]
          (fun _ => false)).1.hourSet
    ∧ (tick (tick ⟨[7], [], [], []⟩ [⟨"250101 1200", "mtg", false, 10800000000⟩]
          (fun _ => false)).1
        [⟨"250101 1200", "mtg", false, 10770000000⟩] (fun _ => true)).2.1 = [] := by
  decide

/-- C3 amended: the ledger entry for an unmuted item inside a threshold
window is created as soon as the polling pass processes it, whatever the
per-recipient delivery outcomes (even if every send fails). -/
theorem ledger_marks_on_first_attempt (sendOk : Int → Bool) (st : BotState)
    (s : SchedItem) (t : Th) (hm : s.mute = false)
    (hw : winOf t s.diffUs = true) :
    uid s t ∈ ledgerOf (processItem sendOk st s).1 t := by
  unfold processItem
  rw [if_neg (by simp [hm])]
  cases t <;>
  · simp only [winOf] at hw
    simp only [ledgerOf]
    unfold fireOne
    split_ifs with h
    · exact List.mem_cons_self _ _
    · simp [hw] at h
      exact h

/-- Witness for `ledger_marks_on_first_attempt`: a concrete all-fail
attempt still marks the key. -/
theorem ledger_marks_on_first_attempt_witness :
    uid ⟨"a", "b", false, 10800000000⟩ Th.hour ∈
      ledgerOf (processItem (fun _ => false) ⟨[], [], [], []⟩
        ⟨"a", "b", false, 10800000000⟩).1 Th.hour :=
  ledger_marks_on_first_attempt (fun _ => false) ⟨[], [], [], []⟩
    ⟨"a", "b", false, 10800000000⟩ Th.hour rfl (by decide)

theorem noticeStep_cons_true (sendOk : Int → Bool) (c : Int) (rest live : List Int)
    (h : sendOk c = true) :
    noticeStep sendOk (c :: rest) live
      = ((noticeStep sendOk rest live).1, (noticeStep sendOk rest live).2.1,
         (c, true) :: (noticeStep sendOk rest live).2.2) := by
  simp only [noticeStep]
  rw [if_pos h]

theorem noticeStep_cons_false (sendOk : Int → Bool) (c : Int) (rest live : List Int)
    (h : sendOk c = false) :
    noticeStep sendOk (c :: rest) live
      = ((noticeStep sendOk rest (live.erase c)).1,
         c :: (noticeStep sendOk rest (live.erase c)).2.1,
         (c, false) :: (noticeStep sendOk rest (live.erase c)).2.2) := by
  simp only [noticeStep]
  rw [if_neg (by simp [h])]

theorem noticeStep_spec (sendOk : Int → Bool) (l : List Int) :
    ∀ pre : List Int, (pre ++ l).Nodup →
      noticeStep sendOk l (pre ++ l)
        = (pre ++ l.filter sendOk, l.filter (fun c => !sendOk c),
           l.map (fun c => (c, sendOk c))) := by
  induction l with
  | nil => intro pre hnd; simp [noticeStep]
  | cons c rest ih =>
    intro pre hnd
    by_cases h : sendOk c = true
    · have hstep := ih (pre ++ [c]) (by rwa [List.append_cons] at hnd)
      rw [← List.append_cons] at hstep
      rw [noticeStep_cons_true sendOk c rest _ h, hstep]
      simp [h]
    · have hb : sendOk c = false := by rwa [Bool.not_eq_true] at h
      have hcpre : c ∉ pre := by
        rw [List.nodup_append] at hnd
        intro hin
        exact hnd.2.2 hin (List.mem_cons_self c rest)
      have herase : (pre ++ c :: rest).erase c = pre ++ rest := by
        rw [List.erase_append_right _ hcpre, List.erase_cons_head]
      have hnd' : (pre ++ rest).Nodup :=
        ((List.sublist_cons_self c rest).append_left pre).nodup hnd
      rw [noticeStep_cons_false sendOk c rest _ hb, herase, ih pre hnd']
      simp [hb]

/-- C7: the `/noti` broadcast attempts delivery to every recipient of
the snapshot in order (one failure never aborts the rest), removes
exactly the failing recipients from the persisted set, and reports the
number of successes and the number of failures. -/
theorem broadcast_partial_failure (userIds : List Int) (sendOk : Int → Bool)
    (hnd : userIds.Nodup) :
    (notice userIds sendOk).attempts = userIds.map (fun c => (c, sendOk c))
    ∧ (notice userIds sendOk).finalIds = userIds.filter sendOk
    ∧ (notice userIds sendOk).failed = userIds.filter (fun c => !sendOk c)
    ∧ (notice userIds sendOk).reportSuccess = (userIds.filter sendOk).length
    ∧ (notice userIds sendOk).reportFail
        = (userIds.filter (fun c => !sendOk c)).length := by
  have h := noticeStep_spec sendOk userIds [] (by simpa using hnd)
  simp only [List.nil_append] at h
  unfold notice
  rw [h]
  exact ⟨rfl, rfl, rfl, rfl, rfl⟩

/-- Witness for `broadcast_partial_failure`: broadcasting to recipients
1, 2, 3 where delivery to 1 fails permanently still reaches 2 and 3,
removes 1, and reports 2 successes and 1 failure. -/
theorem broadcast_partial_failure_witness :
    ([1, 2, 3] : List Int).Nodup
    ∧ (notice [1, 2, 3] (fun c => decide (c ≠ 1))).finalIds
        = [1, 2, 3].filter (fun c => decide (c ≠ 1))
    ∧ (notice [1, 2, 3] (fun c => decide (c ≠ 1))).finalIds = [2, 3]
    ∧ (notice [1, 2, 3] (fun c => decide (c ≠ 1))).failed = [1]
    ∧ (notice [1, 2, 3] (fun c => decide (c ≠ 1))).reportSuccess = 2
    ∧ (notice [1, 2, 3] (fun c => decide (c ≠ 1))).reportFail = 1 :=
  ⟨by decide,
   (broadcast_partial_failure [1, 2, 3] (fun c => decide (c ≠ 1)) (by decide)).2.1,
   by decide, by decide, by decide, by decide⟩

theorem removeA_of_lookup_none {α : Type} (l : List (Int × α)) (c : Int)
    (h : lookupA l c = none) : removeA l c = l := by
  induction l with
  | nil => rfl
  | cons p rest ih =>
    unfold lookupA at h
    split_ifs at h with hc
    have hr := ih h
    simp only [removeA, List.filter_cons]
    rw [if_pos (decide_eq_true hc)]
    exact congrArg (p :: ·) hr

theorem lookupA_removeA_self {α : Type} (l : List (Int × α)) (c : Int) :
    lookupA (removeA l c) c = none := by
  induction l with
  | nil => rfl
  | cons p rest ih =>
    by_cases hc : p.1 = c
    · simp only [removeA, List.filter_cons]
      rw [if_neg (by simp [hc])]
      exact ih
    · simp only [removeA, List.filter_cons]
      rw [if_pos (decide_eq_true hc)]
      unfold lookupA
      rw [if_neg hc]
      exact ih

theorem upcoming_decide_eq (cal : List CalEvent) (now : Int)
    (hcap : (cal.filter (fun e => isUpcoming now e)).length ≤ 300)
    (e : CalEvent) (he : e ∈ cal) :
    decide (e ∈ upcomingItems cal now) = isUpcoming now e := by
  have hmem : e ∈ upcomingItems cal now
      ↔ e ∈ cal.filter (fun x => isUpcoming now x) := by
    unfold upcomingItems
    rw [List.take_of_length_le (by rw [List.length_mergeSort]; exact hcap)]
    exact (List.mergeSort_perm _ _).mem_iff
  by_cases hu : isUpcoming now e = true
  · rw [hu]
    exact decide_eq_true (hmem.mpr (List.mem_filter.mpr ⟨he, hu⟩))
  · rw [Bool.not_eq_true] at hu
    rw [hu]
    apply decide_eq_false
    intro hin
    have hmm := (List.mem_filter.mp (hmem.mp hin)).2
    rw [hu] at hmm
    exact Bool.false_ne_true hmm

theorem upcomingItems_length (cal : List CalEvent) (now : Int)
    (hcap : (cal.filter (fun e => isUpcoming now e)).length ≤ 300) :
    (upcomingItems cal now).length
      = (cal.filter (fun e => isUpcoming now e)).length := by
  unfold upcomingItems
  rw [List.take_of_length_le (by rw [List.length_mergeSort]; exact hcap),
    List.length_mergeSort]

theorem history_decide_eq (cal : List CalEvent) (now : Int)
    (hcap : (cal.filter (fun e => inPastYearRange now e)).length ≤ 500)
    (e : CalEvent) (he : e ∈ cal) :
    decide (e ∈ historyItems cal now)
      = (inPastYearRange now e && strictlyPast now e) := by
  have hmem : e ∈ historyItems cal now
      ↔ e ∈ cal ∧ (inPastYearRange now e && strictlyPast now e) = true := by
    unfold historyItems
    rw [List.take_of_length_le (by rw [List.length_mergeSort]; exact hcap)]
    constructor
    · intro h
      obtain ⟨hin, hsp⟩ := List.mem_filter.mp h
      obtain ⟨hc, hip⟩ :=
        List.mem_filter.mp ((List.mergeSort_perm _ _).mem_iff.mp hin)
      exact ⟨hc, by rw [hip, hsp]; rfl⟩
    · intro hb
      obtain ⟨hc, hb⟩ := hb
      rw [Bool.and_eq_true] at hb
      exact List.mem_filter.mpr
        ⟨(List.mergeSort_perm _ _).mem_iff.mpr (List.mem_filter.mpr ⟨hc, hb.1⟩),
         hb.2⟩
  by_cases hb : (inPastYearRange now e && strictlyPast now e) = true
  · rw [hb]
    exact decide_eq_true (hmem.mpr ⟨he, hb⟩)
  · rw [Bool.not_eq_true] at hb
    rw [hb]
    apply decide_eq_false
    intro hin
    have hmm := (hmem.mp hin).2
    rw [hb] at hmm
    exact Bool.false_ne_true hmm

theorem historyItems_length (cal : List CalEvent) (now : Int)
    (hcap : (cal.filter (fun e => inPastYearRange now e)).length ≤ 500) :
    (historyItems cal now).length
      = ((cal.filter (fun e => inPastYearRange now e)).filter
          (fun e => strictlyPast now e)).length := by
  unfold historyItems
  rw [List.take_of_length_le (by rw [List.length_mergeSort]; exact hcap)]
  exact ((List.mergeSort_perm _ _).filter _).length_eq

/-- C5: from an idle channel, a destructive command followed by `/ok`
executes exactly the requested bulk delete (all upcoming events for
`/delall`, all strictly past events of the trailing year for
`/delhistory`) and returns the channel to idle; a destructive command
whose timeout expires unanswered deletes nothing, sends the
cancellation notice, and returns the channel to idle. Hypotheses: the
channel is idle, no delete fails, and the listing caps (300 upcoming,
500 past) are not exceeded. -/
theorem confirm_protocol (st : ConfirmSt) (chat now : Int)
    (hidle : lookupA st.actions chat = none)
    (hcapU : (st.cal.filter (fun e => isUpcoming now e)).length ≤ 300)
    (hcapH : (st.cal.filter (fun e => inPastYearRange now e)).length ≤ 500) :
    ((ok_handler chat now (fun _ => false) (delall_confirm_prompt chat st).1).1.cal
        = st.cal.filter (fun e => !isUpcoming now e)
      ∧ (ok_handler chat now (fun _ => false) (delall_confirm_prompt chat st).1).2
        = Reply.deletedUpcoming (st.cal.filter (fun e => isUpcoming now e)).length
      ∧ lookupA (ok_handler chat now (fun _ => false)
          (delall_confirm_prompt chat st).1).1.actions chat = none)
    ∧ ((ok_handler chat now (fun _ => false) (delhistory_confirm_prompt chat st).1).1.cal
        = st.cal.filter (fun e => !(inPastYearRange now e && strictlyPast now e))
      ∧ (ok_handler chat now (fun _ => false) (delhistory_confirm_prompt chat st).1).2
        = Reply.deletedHistory ((st.cal.filter (fun e => inPastYearRange now e)).filter
            (fun e => strictlyPast now e)).length
      ∧ lookupA (ok_handler chat now (fun _ => false)
          (delhistory_confirm_prompt chat st).1).1.actions chat = none)
    ∧ ((confirm_timeout chat (delall_confirm_prompt chat st).1).1.cal = st.cal
      ∧ (confirm_timeout chat (delall_confirm_prompt chat st).1).2
        = some Reply.timeoutCancelled
      ∧ lookupA (confirm_timeout chat (delall_confirm_prompt chat st).1).1.actions
          chat = none
      ∧ (confirm_timeout chat (delhistory_confirm_prompt chat st).1).1.cal = st.cal
      ∧ (confirm_timeout chat (delhistory_confirm_prompt chat st).1).2
        = some Reply.timeoutCancelled
      ∧ lookupA (confirm_timeout chat
          (delhistory_confirm_prompt chat st).1).1.actions chat = none) := by
  have hps : (delall_confirm_prompt chat st).1
      = { st with
          actions := (chat, ConfirmAction.delall) :: st.actions,
          tasks := (chat, st.nextTask) :: st.tasks,
          nextTask := st.nextTask + 1 } := by
    unfold delall_confirm_prompt
    rw [hidle]
    rfl
  have hph : (delhistory_confirm_prompt chat st).1
      = { st with
          actions := (chat, ConfirmAction.delhistory) :: st.actions,
          tasks := (chat, st.nextTask) :: st.tasks,
          nextTask := st.nextTask + 1 } := by
    unfold delhistory_confirm_prompt
    rw [hidle]
    rfl
  refine ⟨⟨?_, ?_, ?_⟩, ⟨?_, ?_, ?_⟩, ?_, ?_, ?_, ?_, ?_, ?_⟩
  · rw [hps]
    simp only [ok_handler, lookupA, if_pos]
    apply List.filter_congr
    intro e he
    simp only [Bool.not_false, Bool.and_true]
    rw [upcoming_decide_eq st.cal now hcapU e he]
  · rw [hps]
    simp only [ok_handler, lookupA, if_pos]
    rw [show ((upcomingItems st.cal now).filter
        (fun e => !(fun _ => false) e.eid)).length
      = (upcomingItems st.cal now).length by simp]
    rw [upcomingItems_length st.cal now hcapU]
  · rw [hps]
    simp only [ok_handler, lookupA, if_pos]
    exact lookupA_removeA_self _ _
  · rw [hph]
    simp only [ok_handler, lookupA, if_pos]
    apply List.filter_congr
    intro e he
    simp only [Bool.not_false, Bool.and_true]
    rw [history_decide_eq st.cal now hcapH e he]
  · rw [hph]
    simp only [ok_handler, lookupA, if_pos]
    rw [show ((historyItems st.cal now).filter
        (fun e => !(fun _ => false) e.eid)).length
      = (historyItems st.cal now).length by simp]
    rw [historyItems_length st.cal now hcapH]
  · rw [hph]
    simp only [ok_handler, lookupA, if_pos]
    exact lookupA_removeA_self _ _
  · rw [hps]
    simp only [confirm_timeout, lookupA, if_pos]
    rfl
  · rw [hps]
    simp only [confirm_timeout, lookupA, if_pos]
    rfl
  · rw [hps]
    simp only [confirm_timeout, lookupA, if_pos]
    exact lookupA_removeA_self _ _
  · rw [hph]
    simp only [confirm_timeout, lookupA, if_pos]
    rfl
  · rw [hph]
    simp only [confirm_timeout, lookupA, if_pos]
    rfl
  · rw [hph]
    simp only [confirm_timeout, lookupA, if_pos]
    exact lookupA_removeA_self _ _

/-- Witness for `confirm_protocol` at a two-event calendar: `/delall`
then `/ok` deletes exactly the upcoming event. -/
theorem confirm_protocol_witness :
    lookupA ([] : List (Int × ConfirmAction)) 5 = none
    ∧ (ok_handler 5 0 (fun _ => false)
        (delall_confirm_prompt 5
          ⟨[⟨"e1", some 100, "a"⟩, ⟨"e2", some (-100), "b"⟩], [], [], 0⟩).1).1.cal
      = ([⟨"e1", some 100, "a"⟩, ⟨"e2", some (-100), "b"⟩] : List CalEvent).filter
          (fun e => !isUpcoming 0 e) :=
  ⟨rfl,
   (confirm_protocol ⟨[⟨"e1", some 100, "a"⟩, ⟨"e2", some (-100), "b"⟩], [], [], 0⟩
     5 0 rfl (by decide) (by decide)).1.1⟩

/-- C6: while a confirmation is pending for a channel, both destructive
commands are rejected with an explanatory reply and the whole state —
pending action type, timer task, calendar — is left untouched. -/
theorem second_destructive_command_rejected (st : ConfirmSt) (chat : Int)
    (a : ConfirmAction) (hp : lookupA st.actions chat = some a) :
    delall_confirm_prompt chat st = (st, Reply.rejectedPending)
    ∧ delhistory_confirm_prompt chat st = (st, Reply.rejectedPending) := by
  unfold delall_confirm_prompt delhistory_confirm_prompt
  rw [hp]
  exact ⟨rfl, rfl⟩

/-- Witness for `second_destructive_command_rejected` at a concrete
pending state. -/
theorem second_destructive_command_rejected_witness :
    delall_confirm_prompt 5 ⟨[], [(5, ConfirmAction.delall)], [(5, 0)], 1⟩
      = (⟨[], [(5, ConfirmAction.delall)], [(5, 0)], 1⟩, Reply.rejectedPending) :=
  (second_destructive_command_rejected ⟨[], [(5, ConfirmAction.delall)], [(5, 0)], 1⟩
    5 ConfirmAction.delall rfl).1

/-- C10: `/ok` on a channel with nothing pending (also after a timeout
already cancelled the action) deletes nothing, leaves the whole state
unchanged, and replies that there is no action to confirm. -/
theorem ok_without_pending (st : ConfirmSt) (chat now : Int)
    (delFail : String → Bool) (ha : lookupA st.actions chat = none)
    (ht : lookupA st.tasks chat = none) :
    ok_handler chat now delFail st = (st, Reply.nothingToConfirm) := by
  unfold ok_handler
  rw [ha, removeA_of_lookup_none st.actions chat ha,
    removeA_of_lookup_none st.tasks chat ht]

/-- Witness for `ok_without_pending` at a concrete idle state. -/
theorem ok_without_pending_witness :
    ok_handler 5 0 (fun _ => false) ⟨[⟨"e1", some 100, "a"⟩], [], [], 3⟩
      = (⟨[⟨"e1", some 100, "a"⟩], [], [], 3⟩, Reply.nothingToConfirm) :=
  ok_without_pending ⟨[⟨"e1", some 100, "a"⟩], [], [], 3⟩ 5 0 (fun _ => false)
    rfl rfl

theorem lookupKey_setKey_self (l : List (String × String)) (k v : String) :
    lookupKey (setKey l k v) k = some v := by
  induction l with
  | nil => simp [setKey, lookupKey]
  | cons p rest ih =>
    by_cases h : p.1 = k
    · simp [setKey, h, lookupKey]
    · simp [setKey, h, lookupKey, ih]

theorem lookupKey_setKey_ne (l : List (String × String)) (k v k' : String)
    (hne : k' ≠ k) :
    lookupKey (setKey l k v) k' = lookupKey l k' := by
  induction l with
  | nil => simp [setKey, lookupKey, Ne.symm hne]
  | cons p rest ih =>
    by_cases h : p.1 = k
    · have hp : p.1 ≠ k' := h ▸ Ne.symm hne
      simp [setKey, h, lookupKey, Ne.symm hne, hp, ih]
    · by_cases h2 : p.1 = k'
      · simp [setKey, h, lookupKey, h2, hne]
      · simp [setKey, h, lookupKey, h2, ih]

/-- C8: the mute/unmute patch (`set_mute_on_body` applied through the
collaborator's merge-patch) changes only the `mute` private metadata
entry: start, end, summary and every other private entry of the event
are unchanged, and the mute entry becomes `"v"` or `""`. -/
theorem mute_patch_frame (ev : GEvent) (m : Bool) (k : String)
    (hk : k ≠ "mute") :
    (setMuted ev m).evStart = ev.evStart
    ∧ (setMuted ev m).evEnd = ev.evEnd
    ∧ (setMuted ev m).evSummary = ev.evSummary
    ∧ lookupKey (setMuted ev m).evPriv k = lookupKey ev.evPriv k
    ∧ lookupKey (setMuted ev m).evPriv "mute"
        = some (if m then "v" else "") :=
  ⟨rfl, rfl, rfl, lookupKey_setKey_ne _ _ _ _ hk, lookupKey_setKey_self _ _ _⟩

/-- Witness for `mute_patch_frame`: muting an event leaves its `color`
private entry (and the other fields) alone. -/
theorem mute_patch_frame_witness :
    lookupKey (setMuted ⟨"s", "e", "sum", [("color", "red")]⟩ true).evPriv "color"
      = lookupKey ([("color", "red")] : List (String × String)) "color" :=
  (mute_patch_frame ⟨"s", "e", "sum", [("color", "red")]⟩ true "color"
    (by decide)).2.2.2.1

end KtuAlert
